import Mathlib

/-!
Verification of the EchoTasks core against its specification.

This file shallowly embeds the task store (`src/lib/hooks/use-tasks.ts`), the
local priority heuristic (`src/lib/priority-detection.ts`) and the page-level
command interpreter (`src/app/page.tsx`) of the EchoTasks repository, and
proves or refutes the frozen claims about them.

Embedding conventions:
* JS strings are Lean `String`s; string operations (`toLowerCase`, `trim`,
  `includes`, `split` on a non-word-character regexp) are implemented over
  `List Char` so that they evaluate by `decide`.  `toLowerCase` is modelled
  with `Char.toLower`, which agrees with JS on ASCII (all configured keywords
  are ASCII).
* JS `Date` instants are integers (milliseconds since the epoch); calendar
  dates ("YYYY-MM-DD" strings in the source) keep their string representation
  in `Task.dueDate` and are converted with `parseYmd`/`formatDate`.  JS
  `setDate`/`setMonth` overflow semantics are reproduced through a
  days-from-civil conversion.
* The injected `chrono-node` capabilities are parameters (`parseDate`,
  `chronoParse`, `chronoParseRange`), as the spec treats date parsing as an
  external capability.
* `crypto.randomUUID` freshness appears as an explicit hypothesis on the new
  id where it matters.
-/

namespace EchoTasks

/-! ## JS string primitives -/

/-- JS `String.prototype.includes`: substring containment (empty pattern is
always contained). -/
def strIncludes (s pat : String) : Bool :=
  s.toList.tails.any (fun t => pat.toList.isPrefixOf t)

/-- JS `String.prototype.toLowerCase`, ASCII-faithful. -/
def jsToLower (s : String) : String :=
  String.mk (s.toList.map Char.toLower)

/-- JS whitespace for `trim` (the characters relevant to this code base). -/
def isJsSpace (c : Char) : Bool :=
  c = ' ' || c = '\t' || c = '\n' || c = '\r'

/-- JS `String.prototype.trim`. -/
def jsTrim (s : String) : String :=
  String.mk (((s.toList.dropWhile isJsSpace).reverse.dropWhile isJsSpace).reverse)

/-- JS `\w` character class: `[A-Za-z0-9_]`. -/
def isWordChar (c : Char) : Bool :=
  ('a' ≤ c && c ≤ 'z') || ('A' ≤ c && c ≤ 'Z') || ('0' ≤ c && c ≤ '9') || c = '_'

/-- State for the left-to-right implementation of `split(/\W+/)`:
accumulated words (reversed), current word (reversed), and whether we are
inside a separator run. -/
def splitWordsStep (st : List String × List Char × Bool) (c : Char) :
    List String × List Char × Bool :=
  let done := st.1
  let cur := st.2.1
  let inSep := st.2.2
  if isWordChar c then
    if inSep then (done, [c], false) else (done, c :: cur, false)
  else
    if inSep then (done, cur, true)
    else (String.mk cur.reverse :: done, [], true)

/-- JS `s.split(/\W+/)`: splits on maximal runs of non-word characters,
keeping empty boundary tokens exactly as JS does. -/
def splitWords (s : String) : List String :=
  let st := s.toList.foldl splitWordsStep ([], [], false)
  (String.mk st.2.1.reverse :: st.1).reverse

/-- the `containsKeyword` helper of `priority-detection.ts`: whole-word set
lookup or raw substring containment, for any keyword in the list. -/
def containsKeyword (text : String) (arr : List String) : Bool :=
  let words := splitWords text
  arr.any (fun k => words.contains k || strIncludes text k)

/-! ## Calendar dates (JS `Date` day-level semantics) -/

/-- A calendar date: year, month (1-12) and day of month, as the source's
"YYYY-MM-DD" strings denote.  JS `getMonth` is 0-based; we keep the 1-based
calendar month and adjust at the points where the source adds 1. -/
structure Ymd where
  year : Int
  month : Int
  day : Int
deriving DecidableEq, Repr

/-- Days since the Unix epoch of a civil date (Gregorian, proleptic); the
standard days-from-civil computation, with floor division. -/
def daysFromCivil (y m d : Int) : Int :=
  let y2 := if m ≤ 2 then y - 1 else y
  let era := y2 / 400
  let yoe := y2 - era * 400
  let mp := (m + 9) % 12
  let doy := (153 * mp + 2) / 5 + d - 1
  let doe := yoe * 365 + yoe / 4 - yoe / 100 + doy
  era * 146097 + doe - 719468

/-- Inverse of `daysFromCivil`: the civil date of a day number. -/
def civilFromDays (z0 : Int) : Ymd :=
  let z := z0 + 719468
  let era := z / 146097
  let doe := z - era * 146097
  let yoe := (doe - doe / 1460 + doe / 36524 - doe / 146096) / 365
  let y := yoe + era * 400
  let doy := doe - (365 * yoe + yoe / 4 - yoe / 100)
  let mp := (5 * doy + 2) / 153
  let d := doy - (153 * mp + 2) / 5 + 1
  let m := if mp < 10 then mp + 3 else mp - 9
  { year := if m ≤ 2 then y + 1 else y, month := m, day := d }

/-- Day number of a calendar date. -/
def dayNumber (d : Ymd) : Int :=
  daysFromCivil d.year d.month d.day

/-- JS `date.setDate(date.getDate() + n)`: day-of-month arithmetic with
overflow normalization. -/
def jsSetDateAdd (d : Ymd) (n : Int) : Ymd :=
  civilFromDays (daysFromCivil d.year d.month 1 + (d.day + n) - 1)

/-- JS `date.setMonth(date.getMonth() + n)`: month arithmetic keeping the day
of month, with JS overflow semantics (day overflow rolls into the next
month). -/
def jsSetMonthAdd (d : Ymd) (n : Int) : Ymd :=
  let total := d.year * 12 + (d.month - 1) + n
  civilFromDays (daysFromCivil (total / 12) (total % 12 + 1) 1 + d.day - 1)

/-- Decimal digits of a nonnegative integer, as characters. -/
def natDigits (n : Nat) : List Char :=
  (toString n).toList

/-- JS `String(int)` for the year component. -/
def intDigits (i : Int) : List Char :=
  if i < 0 then '-' :: natDigits i.natAbs else natDigits i.natAbs

/-- JS `String(n).padStart(2, '0')`. -/
def pad2 (i : Int) : List Char :=
  let s := intDigits i
  if s.length < 2 then '0' :: s else s

/-- the `formatDate` helper shared by `use-tasks.ts` and `page.tsx`:
`year-month-day` with zero-padded month and day. -/
def formatDate (d : Ymd) : String :=
  String.mk (intDigits d.year ++ '-' :: pad2 d.month ++ '-' :: pad2 d.day)

/-- Parse a list of decimal digit characters. -/
def digitsToNat : List Char → Option Nat
  | [] => none
  | l => l.foldl (fun acc c =>
      acc.bind (fun n => if c.isDigit then some (n * 10 + (c.toNat - 48)) else none))
      (some 0)

/-- Number of days in a month of the proleptic Gregorian calendar. -/
def daysInMonth (y m : Int) : Int :=
  daysFromCivil (if m = 12 then y + 1 else y) (if m = 12 then 1 else m + 1) 1 -
    daysFromCivil y m 1

/-- Reading of a stored "YYYY-MM-DD" `dueDate` string, as JS
`new Date(s + 'T00:00:00')` would interpret it; strings that do not denote a
valid calendar date yield `none` (JS: an Invalid Date, whose comparisons are
all false). -/
def parseYmd (s : String) : Option Ymd :=
  match s.toList.splitOn '-' with
  | [ys, ms, ds] =>
    match digitsToNat ys, digitsToNat ms, digitsToNat ds with
    | some y, some m, some d =>
      if 1 ≤ (m : Int) && (m : Int) ≤ 12 && 1 ≤ (d : Int) &&
          (d : Int) ≤ daysInMonth (y : Int) (m : Int) then
        some { year := (y : Int), month := (m : Int), day := (d : Int) }
      else none
    | _, _, _ => none
  | _ => none

/-! ## Data model (`src/types/index.ts`) -/

/-- Task priority values (`'high' | 'medium' | 'low' | 'default'`; the `null`
case is `Option.none` at the use sites). -/
inductive Priority
  | high
  | medium
  | low
  | priorityDefault
deriving DecidableEq, Repr

/-- A task (`Task` in `src/types/index.ts`).  Ids are opaque strings
(`crypto.randomUUID()`); we embed them as `Nat`.  `createdAt`/`lastUpdated`
are ISO timestamps, embedded as epoch milliseconds. -/
structure Task where
  id : Nat
  text : String
  completed : Bool
  priority : Option Priority
  dueDate : Option String
  location : Option String
  createdAt : Int
  lastUpdated : Int
deriving DecidableEq, Repr

/-- the `UndoAction` variant of `use-tasks.ts`. -/
inductive UndoAction
  | delete (task : Task)
  | add (id : Nat)
  | update (originalTask : Task)
  | deleteMany (tasks : List Task)
  | completeMany (originalTasks : List Task)
deriving DecidableEq, Repr

/-- Sort options of `use-tasks.ts` / `page.tsx`. -/
inductive SortOption
  | creationDate
  | dueDate
  | lastUpdated
  | priorityHighToLow
  | priorityLowToHigh
deriving DecidableEq, Repr

/-- the `priorityOrder` record with the `|| priorityOrder.default` fallback
applied (an absent priority maps to the default rank 4). -/
def priorityRank : Option Priority → Int
  | some .high => 1
  | some .medium => 2
  | some .low => 3
  | some .priorityDefault => 4
  | none => 4

/-- Comparison key of the `dueDate` sort branch: `new Date(a.dueDate)` when
`a.dueDate` is truthy, else `null`; an unparseable string (JS Invalid Date) is
grouped with `null`. -/
def dueSortKey (t : Task) : Option Int :=
  match t.dueDate with
  | none => none
  | some s => if s = "" then none else (parseYmd s).map dayNumber

/-- the comparator passed to `Array.prototype.sort` for each sort option,
returning a signed integer like the source's subtraction-based comparators. -/
def sortCmp : SortOption → Task → Task → Int
  | .dueDate, a, b =>
    match dueSortKey a, dueSortKey b with
    | none, none => 0
    | none, some _ => 1
    | some _, none => -1
    | some x, some y => x - y
  | .priorityHighToLow, a, b => priorityRank a.priority - priorityRank b.priority
  | .priorityLowToHigh, a, b => priorityRank b.priority - priorityRank a.priority
  | .lastUpdated, a, b => b.lastUpdated - a.lastUpdated
  | .creationDate, a, b => b.createdAt - a.createdAt

/-- Stable insertion of `a` into a sorted list: `a` goes before the first
element it compares `≤ 0` against (so it stays before elements it ties
with). -/
def orderedInsert (le : Task → Task → Bool) (a : Task) : List Task → List Task
  | [] => [a]
  | b :: l => if le a b then a :: b :: l else b :: orderedInsert le a l

/-- Stable sort by a boolean "less or equal".  JS `Array.prototype.sort` is a
stable comparator sort (ES2019), and a stable sort is extensionally unique for
a consistent comparator, so this insertion sort is a faithful model of
`tasksCopy.sort(cmp)`. -/
def stableSort (le : Task → Task → Bool) : List Task → List Task
  | [] => []
  | a :: l => orderedInsert le a (stableSort le l)

/-- the `sortTasks` helper of `use-tasks.ts`. -/
def sortTasks (tasks : List Task) (sortOption : SortOption) : List Task :=
  stableSort (fun a b => sortCmp sortOption a b ≤ 0) tasks

/-! ## Task store (`src/lib/hooks/use-tasks.ts`) -/

/-- the state owned by the `useTasks` hook: the task collection and the
single undo slot. -/
structure StoreState where
  tasks : List Task
  lastAction : Option UndoAction
deriving DecidableEq, Repr

/-- the argument of `addTask`
(`Omit<Task, 'id' | 'completed' | 'createdAt' | 'lastUpdated'>`). -/
structure NewTaskDetails where
  text : String
  priority : Option Priority
  dueDate : Option String
  location : Option String
deriving DecidableEq, Repr

/-- the `newTask` record built by `addTask`: id from `crypto.randomUUID()`
(the fresh `newId`), both timestamps = now, `completed` false. -/
def newTaskOf (now : Int) (newId : Nat) (details : NewTaskDetails) : Task :=
  { id := newId, text := details.text, completed := false,
    priority := details.priority, dueDate := details.dueDate,
    location := details.location, createdAt := now, lastUpdated := now }

/-- `addTask`: prepends the new task, re-sorts, and records an `add` undo
entry. -/
def addTask (sortOption : SortOption) (now : Int) (newId : Nat)
    (details : NewTaskDetails) (s : StoreState) : StoreState :=
  { tasks := sortTasks (newTaskOf now newId details :: s.tasks) sortOption,
    lastAction := some (.add newId) }

/-- `toggleTask`: flips `completed` of the matching task, refreshes
`lastUpdated`, records an `update` undo entry; no-op when the id is absent. -/
def toggleTask (now : Int) (id : Nat) (s : StoreState) : StoreState :=
  match s.tasks.find? (fun t => t.id == id) with
  | none => s
  | some originalTask =>
    { tasks := s.tasks.map (fun task =>
        if task.id == id then
          { task with completed := !task.completed, lastUpdated := now }
        else task),
      lastAction := some (.update originalTask) }

/-- `deleteTask` (single id): removes the matching task and records a
`delete` undo entry holding the removed task; no-op when the id is absent. -/
def deleteTask (id : Nat) (s : StoreState) : StoreState :=
  match s.tasks.find? (fun t => t.id == id) with
  | none => s
  | some taskToDelete =>
    { tasks := s.tasks.filter (fun task => task.id != id),
      lastAction := some (.delete taskToDelete) }

/-- the overdue test of `deleteOverdueTasks`: `task.dueDate` is truthy and
`new Date(task.dueDate + 'T00:00:00') < today` where `today` is the start of
the current calendar day. -/
def isOverdueTask (today : Ymd) (task : Task) : Bool :=
  match task.dueDate with
  | none => false
  | some s =>
    if s = "" then false
    else
      match parseYmd s with
      | none => false
      | some d => dayNumber d < dayNumber today

/-- `deleteOverdueTasks`: removes every task due strictly before the start of
today, records a `delete-many` undo entry with the removed tasks, and returns
how many were removed (0 and no entry when none are overdue). -/
def deleteOverdueTasks (today : Ymd) (s : StoreState) : StoreState × Nat :=
  let overdueTasks := s.tasks.filter (isOverdueTask today)
  if overdueTasks.length = 0 then (s, 0)
  else
    ({ tasks := s.tasks.filter
          (fun task => !(overdueTasks.any (fun ot => ot.id == task.id))),
       lastAction := some (.deleteMany overdueTasks) },
     overdueTasks.length)

/-- `deleteAllTasks`: clears the collection, recording a `delete-many` entry
with the whole prior collection; no-op when already empty. -/
def deleteAllTasks (s : StoreState) : StoreState :=
  if s.tasks.isEmpty then s
  else { tasks := [], lastAction := some (.deleteMany s.tasks) }

/-- the argument of `updateTask`
(`Partial<Omit<Task, 'id' | 'createdAt'>>`).  For the nullable fields the
outer `Option` is field presence and the inner `Option` is the JS `null`. -/
structure TaskUpdates where
  text : Option String := none
  completed : Option Bool := none
  priority : Option (Option Priority) := none
  dueDate : Option (Option String) := none
  location : Option (Option String) := none
deriving DecidableEq, Repr

/-- the merge body of `updateTask` for the matching task: resolve a truthy
string `dueDate` through the injected date parser (`chrono.parseDate`), a
failed parse keeping the task's previous `dueDate`; then spread the updates
over the task and refresh `lastUpdated`. -/
def applyUpdates (parseDate : String → Option Ymd) (now : Int) (task : Task)
    (updates : TaskUpdates) : Task :=
  let newDue : Option (Option String) :=
    match updates.dueDate with
    | some (some str) =>
      if str = "" then some (some str)
      else
        match parseDate str with
        | some parsed => some (some (formatDate parsed))
        | none => some task.dueDate
    | other => other
  { task with
    text := updates.text.getD task.text,
    completed := updates.completed.getD task.completed,
    priority := updates.priority.getD task.priority,
    dueDate := newDue.getD task.dueDate,
    location := updates.location.getD task.location,
    lastUpdated := now }

/-- `updateTask`: merges the partial update into the matching task (with the
due-date parsing of `applyUpdates`), re-sorts, and records an `update` undo
entry with the pre-mutation snapshot; no-op when the id is absent. -/
def updateTask (parseDate : String → Option Ymd) (sortOption : SortOption)
    (now : Int) (id : Nat) (updates : TaskUpdates) (s : StoreState) :
    StoreState :=
  match s.tasks.find? (fun t => t.id == id) with
  | none => s
  | some originalTask =>
    { tasks := sortTasks (s.tasks.map (fun task =>
        if task.id == id then applyUpdates parseDate now task updates
        else task)) sortOption,
      lastAction := some (.update originalTask) }

/-- `completeTasks`: sets `completed` and refreshes `lastUpdated` for every
listed id, recording a `complete-many` undo entry with the pre-mutation
snapshots; no-op when no listed id is present. -/
def completeTasks (ids : List Nat) (completed : Bool) (now : Int)
    (s : StoreState) : StoreState :=
  let originalTasks := s.tasks.filter (fun t => ids.contains t.id)
  if originalTasks.length = 0 then s
  else
    { tasks := s.tasks.map (fun task =>
        if ids.contains task.id then
          { task with completed := completed, lastUpdated := now }
        else task),
      lastAction := some (.completeMany originalTasks) }

/-- `revertLastAction`: applies the exact inverse recorded in the undo slot
and clears the slot; no-op when the slot is empty. -/
def revertLastAction (sortOption : SortOption) (s : StoreState) : StoreState :=
  match s.lastAction with
  | none => s
  | some act =>
    let tasks :=
      match act with
      | .add id => s.tasks.filter (fun t => t.id != id)
      | .delete task => sortTasks (s.tasks ++ [task]) sortOption
      | .update originalTask =>
        sortTasks (s.tasks.map (fun t =>
          if t.id == originalTask.id then originalTask else t)) sortOption
      | .completeMany originalTasks =>
        s.tasks.map (fun t => (originalTasks.find? (fun o => o.id == t.id)).getD t)
      | .deleteMany tasks => sortTasks (s.tasks ++ tasks) sortOption
    { tasks := tasks, lastAction := none }

/-! ## Priority heuristic (`src/lib/priority-detection.ts`) -/

/-- the configured urgent keywords. -/
def URGENT_KEYWORDS : List String :=
  ["urgent", "asap", "immediately", "right away", "right now",
   "as soon as possible"]

/-- the configured impact keywords. -/
def IMPACT_KEYWORDS : List String :=
  ["tax", "rent", "bill", "submit", "application", "deadline", "payment",
   "fine", "due"]

/-- the configured location/errand keywords. -/
def LOCATION_KEYWORDS : List String :=
  ["nearby", "near", "supermarket", "market", "store", "grocery", "groceries"]

/-- the `Priority` result type of `priority-detection.ts`
(`'high'|'medium'|'low'|'none'`). -/
inductive PriorityBucket
  | high
  | medium
  | low
  | noSignal
deriving DecidableEq, Repr

/-- the result record of `detectPriorityFast`. -/
structure DetectResult where
  priority : PriorityBucket
  reason : String
  score : Int
deriving DecidableEq, Repr

/-- `detectPriorityFast`.  `chronoParse text now` is the injected
`chrono.parse` capability, returning the epoch-millisecond instant of the
first parsed date of `text` (or `none` when no date parses); `now` is in
epoch milliseconds.  `hoursBetween` becomes exact rational arithmetic. -/
def detectPriorityFast (chronoParse : String → Int → Option Int)
    (raw : String) (now : Int) : DetectResult :=
  let text := jsToLower (jsTrim raw)
  if containsKeyword text URGENT_KEYWORDS then
    { priority := .high, reason := "explicit urgency word detected", score := 90 }
  else
    let dateScore : Int :=
      match chronoParse text now with
      | none => 0
      | some dt =>
        let hrs : ℚ := ((dt : ℚ) - (now : ℚ)) / (1000 * 60 * 60)
        if hrs ≤ 1 / 2 then 40
        else if hrs ≤ 4 then 40
        else if hrs ≤ 24 then 30
        else if hrs ≤ 72 then 15
        else 5
    let impact : Int := if containsKeyword text IMPACT_KEYWORDS then 15 else 0
    let loc : Int := if containsKeyword text LOCATION_KEYWORDS then 10 else 0
    let isRoutine := strIncludes text "every" || strIncludes text "daily" ||
      strIncludes text "weekly"
    let routinePenalty : Int := if isRoutine then -10 else 0
    let score0 := dateScore + impact + loc + routinePenalty
    let score := if score0 < 0 then 0 else score0
    if score ≥ 70 then
      { priority := .high,
        reason := "score " ++ toString score ++ " (date:" ++ toString dateScore
          ++ " impact:" ++ toString impact ++ ")",
        score := score }
    else if score ≥ 30 then
      { priority := .medium, reason := "score " ++ toString score, score := score }
    else if score ≥ 5 then
      { priority := .low, reason := "score " ++ toString score, score := score }
    else
      { priority := .noSignal, reason := "no deadline or urgency detected",
        score := score }

/-- the claim's 5-step algorithm for `detectPriority`, written from the
spec's words (urgent keyword short-circuits to high with score exactly 90;
otherwise date score per the hour table, plus 15 for impact, plus 10 for
location, minus 10 for recurrence, floored at 0; bucket thresholds 70/30/5).
Used as the reference side of the C6 refinement claim. -/
def detectPrioritySpec (chronoParse : String → Int → Option Int)
    (raw : String) (now : Int) : PriorityBucket × Int :=
  let input := jsToLower (jsTrim raw)
  if containsKeyword input URGENT_KEYWORDS then (.high, 90)
  else
    let dateScore : Int :=
      match chronoParse input now with
      | none => 0
      | some instant =>
        let hoursUntil : ℚ := ((instant : ℚ) - (now : ℚ)) / (1000 * 60 * 60)
        if hoursUntil ≤ 1 / 2 then 40
        else if hoursUntil ≤ 4 then 40
        else if hoursUntil ≤ 24 then 30
        else if hoursUntil ≤ 72 then 15
        else 5
    let impactBonus : Int := if containsKeyword input IMPACT_KEYWORDS then 15 else 0
    let locationBonus : Int :=
      if containsKeyword input LOCATION_KEYWORDS then 10 else 0
    let recurrencePenalty : Int :=
      if strIncludes input "every" || strIncludes input "daily" ||
          strIncludes input "weekly" then 10 else 0
    let score := max 0 (dateScore + impactBonus + locationBonus - recurrencePenalty)
    if score ≥ 70 then (.high, score)
    else if score ≥ 30 then (.medium, score)
    else if score ≥ 5 then (.low, score)
    else (.noSignal, score)

/-! ## Reference resolver (`src/app/page.tsx`) -/

/-- the `topicSynonyms` table. -/
def topicSynonyms : List (String × List String) :=
  [("shopping", ["buy", "groceries", "get", "shop"]),
   ("calls", ["call", "phone", "contact"]),
   ("presentation", ["presentation", "slides", "deck"]),
   ("workout", ["workout", "exercise", "gym", "run", "yoga"]),
   ("cleaning", ["clean", "tidy", "organize"]),
   ("report", ["report", "document", "summary"]),
   ("work", ["work", "office", "project"]),
   ("submit", ["submit", "submitting"])]

/-- the phase-1 phrase test of `getFuzzyMatchingTaskIds`: substring
containment in either direction on lowercased text. -/
def phraseMatch (lowerTopic : String) (task : Task) : Bool :=
  let lowerTaskText := jsToLower task.text
  strIncludes lowerTaskText lowerTopic || strIncludes lowerTopic lowerTaskText

/-- `getFuzzyMatchingTaskIds`: phase 1 keeps phrase matches and returns them
when any exist; phase 2 falls back to synonym-group and topic-token
matching. -/
def getFuzzyMatchingTaskIds (allTasks : List Task) (topic : String) :
    List Nat :=
  if topic = "" then []
  else
    let lowerTopic := jsToLower topic
    let phraseMatches := allTasks.filter (phraseMatch lowerTopic)
    if phraseMatches.length > 0 then phraseMatches.map (·.id)
    else
      let topicWords := (splitWords lowerTopic).filter (fun w => w.length > 2)
      let synonymKey :=
        ((topicSynonyms.find? (fun kv =>
            kv.2.contains lowerTopic || strIncludes kv.1 lowerTopic)).map
          (·.1)).getD lowerTopic
      let synonyms :=
        ((topicSynonyms.find? (fun kv => kv.1 == synonymKey)).map (·.2)).getD
          [synonymKey]
      (allTasks.filter (fun task =>
        let lowerTaskText := jsToLower task.text
        let taskWords := splitWords lowerTaskText
        taskWords.any (fun word => synonyms.contains word) ||
          topicWords.any (fun topicWord => strIncludes lowerTaskText topicWord))).map
        (·.id)

/-- the `sortedTasks` memo of `page.tsx`: the display-order list — the hook's
task list, with completed tasks grouped at the bottom when the corresponding
setting is on. -/
def displayOrder (moveCompletedToBottom : Bool) (tasks : List Task) :
    List Task :=
  if moveCompletedToBottom then
    tasks.filter (fun t => !t.completed) ++ tasks.filter (fun t => t.completed)
  else tasks

/-- a position token of `Action['filter'].positions`. -/
inductive Position
  | num (n : Int)
  | last
  | secondLast
  | odd
  | even
  | all
  | range (start stop : Int)
deriving DecidableEq, Repr

/-- the `status` filter values. -/
inductive StatusFilter
  | completed
  | incomplete
  | overdue
deriving DecidableEq, Repr

/-- the declarative `filter` descriptor of an action. -/
structure Filter where
  positions : Option (List Position) := none
  priority : Option (List Priority) := none
  status : Option StatusFilter := none
  text : Option String := none
  location : Option String := none
  dueDate : Option String := none
deriving DecidableEq, Repr

/-- insertion into the JS `Set<number>` of indices (insertion-ordered,
deduplicating). -/
def insertIdx (acc : List Int) (i : Int) : List Int :=
  if acc.contains i then acc else acc ++ [i]

/-- the per-token body of the `filter.positions.forEach` loop, adding the
0-based display indices a token denotes. -/
def positionIndices (taskCount : Int) (acc : List Int) (pos : Position) :
    List Int :=
  match pos with
  | .num n => if 0 < n && n ≤ taskCount then insertIdx acc (n - 1) else acc
  | .last => if taskCount > 0 then insertIdx acc (taskCount - 1) else acc
  | .secondLast => if taskCount > 1 then insertIdx acc (taskCount - 2) else acc
  | .odd =>
    (List.range taskCount.toNat).foldl
      (fun a i => if i % 2 = 0 then insertIdx a (i : Int) else a) acc
  | .even =>
    (List.range taskCount.toNat).foldl
      (fun a i => if i % 2 = 1 then insertIdx a (i : Int) else a) acc
  | .all =>
    (List.range taskCount.toNat).foldl (fun a i => insertIdx a (i : Int)) acc
  | .range start stop =>
    let s := if start < 0 then taskCount + start else start - 1
    let e := if stop < 0 then taskCount + stop else stop - 1
    (List.range (e - s + 1).toNat).foldl
      (fun a k =>
        let i := s + k
        if 0 ≤ i && i < taskCount then insertIdx a i else a) acc

/-- the positional branch of `getFilteredTaskIds`: resolve every token
against the display-order list into a deduplicated index set, then map the
indices back to ids. -/
def resolvePositions (posTasks : List Task) (positions : List Position) :
    List Nat :=
  let taskCount : Int := posTasks.length
  let indices := positions.foldl (positionIndices taskCount) []
  indices.filterMap (fun i => (posTasks.get? i.toNat).map (·.id))

/-- Milliseconds per day. -/
def msPerDay : Int := 86400000

/-- JS `setHours(0,0,0,0)` on an epoch-millisecond instant (the embedding
identifies the local timezone with UTC). -/
def startOfDayMs (t : Int) : Int := (t / msPerDay) * msPerDay

/-- `getFilteredTaskIds`.  `chronoParseRange` is the injected `chrono.parse`
range capability for the due-date expression (first result's start instant
and optional end instant, epoch ms); `nowMs` is the current instant.
Successive narrowing passes over `tasks` for text, due date, status,
priority and location; when any position token is present the positional
resolution against the display-order list replaces the narrowed result
entirely. -/
def getFilteredTaskIds (chronoParseRange : String → Option (Int × Option Int))
    (nowMs : Int) (moveCompletedToBottom : Bool) (tasks : List Task)
    (filter : Option Filter) : List Nat :=
  match filter with
  | none => []
  | some f =>
    let base0 : List Task := tasks
    let base1 : List Task :=
      match f.text with
      | none => base0
      | some ftext =>
        if ftext = "" then base0
        else
          let fuzzyIds := getFuzzyMatchingTaskIds base0 ftext
          let directIds := (base0.filter (fun (t : Task) =>
            strIncludes (jsToLower t.text) (jsToLower ftext))).map (·.id)
          let combined := fuzzyIds ++ directIds
          base0.filter (fun t => combined.contains t.id)
    let base2 : List Task :=
      match f.dueDate with
      | none => base1
      | some fdue =>
        if fdue = "" then base1
        else
          match chronoParseRange (jsToLower fdue) with
          | none => base1
          | some (startMs, endOpt) =>
            let endMs := endOpt.getD (startMs + msPerDay - 1)
            let startDate := startOfDayMs startMs
            let endDate := startOfDayMs endMs + (msPerDay - 1)
            base1.filter (fun task =>
              match task.dueDate with
              | none => false
              | some ds =>
                if ds = "" then false
                else
                  match parseYmd ds with
                  | none => false
                  | some d =>
                    let middayMs := dayNumber d * msPerDay + msPerDay / 2
                    startDate ≤ middayMs && middayMs ≤ endDate)
    let base3 : List Task :=
      match f.status with
      | none => base2
      | some .overdue =>
        base2.filter (fun t =>
          (match t.dueDate with
           | none => false
           | some ds =>
             if ds = "" then false
             else
               match parseYmd ds with
               | none => false
               | some d => dayNumber d * msPerDay < startOfDayMs nowMs) &&
            !t.completed)
      | some .completed => base2.filter (fun t => t.completed)
      | some .incomplete => base2.filter (fun t => !t.completed)
    let base4 : List Task :=
      match f.priority with
      | none => base3
      | some ps =>
        if ps.length = 0 then base3
        else
          base3.filter (fun t =>
            match t.priority with
            | none => false
            | some p => ps.contains p)
    let base5 : List Task :=
      match f.location with
      | none => base4
      | some floc =>
        if floc = "" then base4
        else
          base4.filter (fun t =>
            match t.location with
            | none => false
            | some l =>
              if l = "" then false
              else strIncludes (jsToLower l) (jsToLower floc))
    match f.positions with
    | some ps =>
      if ps.length > 0 then
        resolvePositions (displayOrder moveCompletedToBottom tasks) ps
      else base5.map (·.id)
    | none => base5.map (·.id)

/-! ## Store operations present only as callers in the sources

`page.tsx` destructures `addTasks`, `updateTasks` and calls
`deleteTask(idsToDelete)` with a list of ids, but the hook file in the
sources carries only the single-task forms, so the list-accepting store
operations are modelled from the spec (§4.1). -/

/-- Modelled from the spec: the list form of `delete(id or list of ids)` is
missing from the sources (only its caller, the `DELETE_TASK` case of
`page.tsx`, is present).  Per §4.1 it "removes matching tasks; records
`delete-many` (multi) undo entry with full removed-task snapshots", and per
the failure semantics a call matching nothing degrades to a no-op. -/
def deleteTasks (ids : List Nat) (s : StoreState) : StoreState :=
  let removed := s.tasks.filter (fun t => ids.contains t.id)
  if removed.length = 0 then s
  else
    { tasks := s.tasks.filter (fun t => !ids.contains t.id),
      lastAction := some (.deleteMany removed) }

/-- Modelled from the spec: `updateMany` is missing from the sources (only
its caller `updateTasks(...)` in `page.tsx` is present).  Per §4.1-§4.2 it
applies each `(id, partialFields)` pair independently with the same
merge-and-date-parse contract as `update`, and records once a
`complete-many`-style snapshot list covering all ids touched, so that a
single undo reverts the whole batch; a call touching nothing degrades to a
no-op. -/
def updateTasks (parseDate : String → Option Ymd) (sortOption : SortOption)
    (now : Int) (pairs : List (Nat × TaskUpdates)) (s : StoreState) :
    StoreState :=
  let touched := s.tasks.filter (fun t => pairs.any (fun p => p.1 == t.id))
  if touched.length = 0 then s
  else
    { tasks := sortTasks (s.tasks.map (fun task =>
        match pairs.find? (fun p => p.1 == task.id) with
        | some p => applyUpdates parseDate now task p.2
        | none => task)) sortOption,
      lastAction := some (.completeMany touched) }

/-! ## Command orchestrator: the `UPDATE_TASK` path (`page.tsx`) -/

/-- the relative `dueDateShift` descriptor of `Action['updates']`. -/
structure DateShift where
  days : Option Int := none
  weeks : Option Int := none
  months : Option Int := none
deriving DecidableEq, Repr

/-- the `Action['updates']` descriptor produced by the intent service. -/
structure UpdatesDesc where
  text : Option String := none
  priority : Option Priority := none
  dueDate : Option String := none
  dueDateShift : Option DateShift := none
  location : Option String := none
deriving DecidableEq, Repr

/-- Conversion of the orchestrator's update descriptor into the store's
partial-field record, with the due-date slot substituted (the spread
`... finalUpdates` with `dueDate` possibly overridden); the extraneous
`dueDateShift` key the JS spread would copy onto the task object is not a
`Task` field and is dropped. -/
def toTaskUpdates (u : UpdatesDesc) (due : Option (Option String)) :
    TaskUpdates :=
  { text := u.text, completed := none, priority := u.priority.map some,
    dueDate := due, location := u.location.map some }

/-- the `currentDueDate` of the shift branch: midnight of the task's own
stored due date, or `new Date()` (= `today`) when the task has none (or an
empty string); an unparseable stored string is the JS Invalid Date,
`none`. -/
def shiftBase (today : Ymd) (task : Task) : Option Ymd :=
  match task.dueDate with
  | some ds => if ds = "" then some today else parseYmd ds
  | none => some today

/-- the day/week/month arithmetic of the shift branch:
`currentDueDate.setDate(getDate() + days + weeks*7)` then
`setMonth(getMonth() + months)`, with the `= 0` defaults of the
destructuring. -/
def shiftDue (shift : DateShift) (d : Ymd) : Ymd :=
  jsSetMonthAdd (jsSetDateAdd d (shift.days.getD 0 + shift.weeks.getD 0 * 7))
    (shift.months.getD 0)

/-- the `performUpdate` closure of the `UPDATE_TASK` case: pre-resolve a
truthy `dueDate` string through the injected parser (a failed parse becomes
`null`); for a relative `dueDateShift`, compute each target task's new due
date from that task's own current due date via `shiftBase`/`shiftDue`, and
hand the per-task update list to `updateTasks`; otherwise hand every target
the same resolved updates.  An invalid stored due date (JS Invalid Date)
formats as "NaN-NaN-NaN". -/
def performUpdate (parseDate : String → Option Ymd) (today : Ymd)
    (sortOption : SortOption) (now : Int) (u : UpdatesDesc)
    (targetIds : List Nat) (s : StoreState) : StoreState :=
  let due1 : Option (Option String) :=
    match u.dueDate with
    | none => none
    | some str =>
      if str = "" then some (some str)
      else
        match parseDate str with
        | some d => some (some (formatDate d))
        | none => some none
  match u.dueDateShift with
  | none =>
    updateTasks parseDate sortOption now
      (targetIds.map (fun id => (id, toTaskUpdates u due1))) s
  | some shift =>
    let tasksToShift := s.tasks.filter (fun t => targetIds.contains t.id)
    let shiftedUpdates := tasksToShift.map (fun task =>
      let shifted := (shiftBase today task).map (shiftDue shift)
      let dueStr := (shifted.map formatDate).getD "NaN-NaN-NaN"
      (task.id, toTaskUpdates u (some (some dueStr))))
    updateTasks parseDate sortOption now shiftedUpdates s

/-! ## Helper lemmas -/

theorem orderedInsert_perm (le : Task → Task → Bool) (a : Task) (l : List Task) :
    (orderedInsert le a l).Perm (a :: l) := by
  induction l with
  | nil => exact List.Perm.refl _
  | cons b l ih =>
    by_cases hle : le a b = true
    · simp [orderedInsert, hle]
    · simp only [orderedInsert, hle, if_false]
      exact (ih.cons b).trans (List.Perm.swap a b l)

theorem stableSort_perm (le : Task → Task → Bool) (l : List Task) :
    (stableSort le l).Perm l := by
  induction l with
  | nil => exact List.Perm.refl _
  | cons a l ih =>
    exact (orderedInsert_perm le a (stableSort le l)).trans (ih.cons a)

theorem sortTasks_perm (l : List Task) (o : SortOption) :
    (sortTasks l o).Perm l :=
  stableSort_perm _ l

theorem mem_sortTasks {x : Task} {l : List Task} {o : SortOption} :
    x ∈ sortTasks l o ↔ x ∈ l :=
  (sortTasks_perm l o).mem_iff

theorem task_id_inj {l : List Task} (h : (l.map (fun t => t.id)).Nodup)
    {x y : Task} (hx : x ∈ l) (hy : y ∈ l) (hxy : x.id = y.id) : x = y :=
  List.inj_on_of_nodup_map h hx hy hxy

theorem nodup_ids_tail {a : Task} {l : List Task}
    (h : ((a :: l).map (fun t => t.id)).Nodup) :
    (l.map (fun t => t.id)).Nodup := by
  simp only [List.map_cons, List.nodup_cons] at h
  exact h.2

theorem head_id_not_in_tail {a : Task} {l : List Task}
    (h : ((a :: l).map (fun t => t.id)).Nodup) {t : Task} (ht : t ∈ l) :
    a.id ≠ t.id := by
  simp only [List.map_cons, List.nodup_cons] at h
  intro he
  exact h.1 (he ▸ List.mem_map_of_mem _ ht)

theorem filter_id_ne_eq_self {l : List Task} {i : Nat}
    (h : ∀ t ∈ l, t.id ≠ i) : l.filter (fun t => t.id != i) = l := by
  apply List.filter_eq_self.mpr
  intro t ht
  simpa [bne_iff_ne] using h t ht

theorem perm_cons_filter_id {l : List Task}
    (h : (l.map (fun t => t.id)).Nodup) {t : Task} (ht : t ∈ l) :
    l.Perm (t :: l.filter (fun x => x.id != t.id)) := by
  induction l with
  | nil => cases ht
  | cons a l ih =>
    rcases List.mem_cons.mp ht with rfl | htl
    · have hfilter : l.filter (fun x => x.id != t.id) = l :=
        filter_id_ne_eq_self (fun b hb he =>
          head_id_not_in_tail h hb he.symm)
      simp [List.filter_cons, hfilter]
    · have hat : a.id ≠ t.id := head_id_not_in_tail h htl
      have ihh := ih (nodup_ids_tail h) htl
      have hfc : (a :: l).filter (fun x => x.id != t.id) =
          a :: l.filter (fun x => x.id != t.id) := by
        simp [List.filter_cons, bne_iff_ne, hat]
      rw [hfc]
      exact ((ihh.cons a).trans (List.Perm.swap t a _))

theorem map_replace_id_eq_self {l : List Task}
    (h : (l.map (fun t => t.id)).Nodup) {orig : Task} (horig : orig ∈ l) :
    l.map (fun t => if t.id == orig.id then orig else t) = l := by
  induction l with
  | nil => rfl
  | cons a l ih =>
    rcases List.mem_cons.mp horig with rfl | horigl
    · have : ∀ t ∈ l, (if t.id == orig.id then orig else t) = t := by
        intro t htl
        have : t.id ≠ orig.id := fun he =>
          head_id_not_in_tail h htl he.symm
        simp [this]
      simp only [List.map_cons, beq_self_eq_true, if_true]
      rw [List.map_congr_left this, List.map_id']
    · have hat : a.id ≠ orig.id := head_id_not_in_tail h horigl
      have ihh := ih (nodup_ids_tail h) horigl
      simp only [List.map_cons, ihh]
      simp [hat]

theorem any_filter_id {p : Task → Bool} {l : List Task}
    (h : (l.map (fun t => t.id)).Nodup) {x : Task} (hx : x ∈ l) :
    ((l.filter p).any (fun ot => ot.id == x.id)) = p x := by
  cases hpx : p x with
  | true =>
    exact List.any_eq_true.mpr
      ⟨x, List.mem_filter.mpr ⟨hx, hpx⟩, by simp⟩
  | false =>
    apply List.any_eq_false.mpr
    intro ot hot hbeq
    rcases List.mem_filter.mp hot with ⟨hotl, hpot⟩
    have : ot = x := task_id_inj h hotl hx (by simpa using hbeq)
    rw [this, hpx] at hpot
    cases hpot

theorem find?_id_filter {p : Task → Bool} {l : List Task}
    (h : (l.map (fun t => t.id)).Nodup) {t : Task} (ht : t ∈ l)
    (hpt : p t = true) :
    (l.filter p).find? (fun o => o.id == t.id) = some t := by
  induction l with
  | nil => cases ht
  | cons a l ih =>
    rcases List.mem_cons.mp ht with rfl | htl
    · simp [List.filter_cons, hpt, List.find?]
    · have hat : a.id ≠ t.id := head_id_not_in_tail h htl
      have ihh := ih (nodup_ids_tail h) htl
      cases hpa : p a with
      | true => simpa [List.filter_cons, hpa, List.find?, hat] using ihh
      | false => simpa [List.filter_cons, hpa] using ihh

theorem find?_id_filter_none {p : Task → Bool} {l : List Task}
    (h : (l.map (fun t => t.id)).Nodup) {t : Task} (ht : t ∈ l)
    (hpt : p t = false) :
    (l.filter p).find? (fun o => o.id == t.id) = none := by
  apply List.find?_eq_none.mpr
  intro o ho hbeq
  rcases List.mem_filter.mp ho with ⟨hol, hpo⟩
  have : o = t := task_id_inj h hol ht (by simpa using hbeq)
  rw [this, hpt] at hpo
  cases hpo

theorem find?_map_pair {l : List Task}
    (h : (l.map (fun t => t.id)).Nodup) {t : Task} (ht : t ∈ l)
    (g : Task → TaskUpdates) :
    ((l.map (fun a => (a.id, g a))).find? (fun p => p.1 == t.id)) =
      some (t.id, g t) := by
  induction l with
  | nil => cases ht
  | cons a l ih =>
    rcases List.mem_cons.mp ht with rfl | htl
    · rw [List.map_cons, List.find?_cons_of_pos _ (by simp)]
    · have hat : a.id ≠ t.id := head_id_not_in_tail h htl
      rw [List.map_cons, List.find?_cons_of_neg _ (by simp [hat])]
      exact ih (nodup_ids_tail h) htl

theorem find?_pair_const {ids : List Nat} {v : Nat}
    (h : v ∈ ids) (c : TaskUpdates) :
    ((ids.map (fun i => (i, c))).find? (fun p => p.1 == v)) = some (v, c) := by
  induction ids with
  | nil => cases h
  | cons a ids ih =>
    by_cases hav : a = v
    · rw [List.map_cons, List.find?_cons_of_pos _ (by simp [hav]), hav]
    · have h2 : v ∈ ids := by
        rcases List.mem_cons.mp h with h1 | h1
        · exact absurd h1.symm hav
        · exact h1
      rw [List.map_cons, List.find?_cons_of_neg _ (by simp [hav])]
      exact ih h2

theorem formatDate_ne_empty (d : Ymd) : formatDate d ≠ "" := by
  intro h
  have h2 := congrArg String.data h
  simp [formatDate] at h2


/-! ## Claim C9 -/

/-- Claim C9: for every id not present in the store, each Store operation
that references a task by id (update, delete, toggle, and setCompleted with
a list containing no present ids) degrades to a no-op that leaves the task
collection and the undo slot completely unchanged (and, being a total Lean
function, never throws). -/
theorem claim_C9 : ∀ (parseDate : String → Option Ymd) (so : SortOption)
    (now : Int) (id : Nat) (ids : List Nat) (u : TaskUpdates) (b : Bool)
    (s : StoreState),
    (∀ t ∈ s.tasks, t.id ≠ id) →
    (∀ t ∈ s.tasks, t.id ∉ ids) →
    updateTask parseDate so now id u s = s ∧
    deleteTask id s = s ∧
    toggleTask now id s = s ∧
    completeTasks ids b now s = s := by
  intro parseDate so now id ids u b s h1 h2
  have hfind : s.tasks.find? (fun t => t.id == id) = none :=
    List.find?_eq_none.mpr (fun t ht => by simpa using h1 t ht)
  have hfilter : s.tasks.filter (fun t => ids.contains t.id) = [] := by
    apply List.filter_eq_nil_iff.mpr
    intro t ht
    simpa using h2 t ht
  refine ⟨?_, ?_, ?_, ?_⟩
  · simp [updateTask, hfind]
  · simp [deleteTask, hfind]
  · simp [toggleTask, hfind]
  · simp only [completeTasks]
    rw [hfilter]
    simp

/-- Concrete task for the C9 witness. -/
def c9Task : Task :=
  { id := 1, text := "buy milk", completed := false, priority := none,
    dueDate := none, location := none, createdAt := 0, lastUpdated := 0 }

/-- Concrete one-task store for the C9 witness. -/
def c9Store : StoreState := { tasks := [c9Task], lastAction := none }

/-- Witness for C9 at a concrete store and absent ids. -/
theorem claim_C9_witness :
    updateTask (fun _ => none) .creationDate 7 2 {} c9Store = c9Store ∧
    deleteTask 2 c9Store = c9Store ∧
    toggleTask 7 2 c9Store = c9Store ∧
    completeTasks [5, 9] true 7 c9Store = c9Store :=
  claim_C9 (fun _ => none) .creationDate 7 2 [5, 9] {} true c9Store
    (by decide) (by decide)

/-! ## Claim C4 -/

/-- Claim C4: the Store delete removes exactly the tasks whose ids match,
recording a `delete` undo entry (with the removed task) for a single id and
a `delete-many` undo entry with full removed-task snapshots for a list of
ids (the list form is the spec-modelled `deleteTasks`). -/
theorem claim_C4 : ∀ (id : Nat) (ids : List Nat) (s : StoreState) (t : Task),
    (s.tasks.find? (fun x => x.id == id) = some t →
      (∀ x, x ∈ (deleteTask id s).tasks ↔ x ∈ s.tasks ∧ x.id ≠ id) ∧
      (deleteTask id s).lastAction = some (.delete t) ∧
      t ∈ s.tasks ∧ t.id = id) ∧
    ((∃ x ∈ s.tasks, x.id ∈ ids) →
      (∀ x, x ∈ (deleteTasks ids s).tasks ↔ x ∈ s.tasks ∧ x.id ∉ ids) ∧
      (deleteTasks ids s).lastAction =
        some (.deleteMany (s.tasks.filter (fun x => ids.contains x.id)))) := by
  intro id ids s t
  constructor
  · intro hfind
    have ht : t ∈ s.tasks := List.mem_of_find?_eq_some hfind
    have hid : t.id = id := by simpa using List.find?_some hfind
    refine ⟨?_, ?_, ht, hid⟩
    · intro x
      simp [deleteTask, hfind, List.mem_filter, bne_iff_ne]
    · simp [deleteTask, hfind]
  · intro hex
    have hne : s.tasks.filter (fun x => ids.contains x.id) ≠ [] := by
      rcases hex with ⟨x, hx, hxid⟩
      exact List.ne_nil_of_mem
        (List.mem_filter.mpr ⟨hx, by simpa using hxid⟩)
    have hlen : (s.tasks.filter (fun x => ids.contains x.id)).length ≠ 0 := by
      simpa [List.length_eq_zero] using hne
    constructor
    · intro x
      simp only [deleteTasks]
      rw [if_neg hlen]
      simp [List.mem_filter]
    · simp only [deleteTasks]
      rw [if_neg hlen]

/-- Concrete first task for the C4 witness. -/
def c4Task1 : Task :=
  { id := 1, text := "a", completed := false, priority := none,
    dueDate := none, location := none, createdAt := 0, lastUpdated := 0 }

/-- Concrete second task for the C4 witness. -/
def c4Task2 : Task :=
  { id := 2, text := "b", completed := true, priority := none,
    dueDate := none, location := none, createdAt := 1, lastUpdated := 1 }

/-- Concrete two-task store for the C4 witness. -/
def c4Store : StoreState := { tasks := [c4Task1, c4Task2], lastAction := none }

/-- Witness for C4 at a concrete store: a present single id and a two-id
list. -/
theorem claim_C4_witness :
    ((∀ x, x ∈ (deleteTask 1 c4Store).tasks ↔ x ∈ c4Store.tasks ∧ x.id ≠ 1) ∧
      (deleteTask 1 c4Store).lastAction = some (.delete c4Task1) ∧
      c4Task1 ∈ c4Store.tasks ∧ c4Task1.id = 1) ∧
    ((∀ x, x ∈ (deleteTasks [1, 2] c4Store).tasks ↔
        x ∈ c4Store.tasks ∧ x.id ∉ [1, 2]) ∧
      (deleteTasks [1, 2] c4Store).lastAction =
        some (.deleteMany (c4Store.tasks.filter (fun x =>
          List.contains [1, 2] x.id)))) :=
  ⟨(claim_C4 1 [1, 2] c4Store c4Task1).1 (by decide),
    (claim_C4 1 [1, 2] c4Store c4Task1).2 ⟨c4Task1, by decide, by decide⟩⟩


/-! ## Claim C5 -/

/-- Claim C5: `deleteOverdue` removes exactly the tasks whose due date is
strictly before the start of the reference day — never a task whose due date
is null or today-or-later — with eligibility decided purely by date
comparison regardless of the completed flag; it records a `delete-many`
entry and returns the number removed (0 and no entry when none are
overdue). -/
theorem claim_C5 : ∀ (today : Ymd) (s : StoreState),
    (s.tasks.map (fun t => t.id)).Nodup →
    (∀ x, x ∈ (deleteOverdueTasks today s).1.tasks ↔
        x ∈ s.tasks ∧ isOverdueTask today x = false) ∧
    (deleteOverdueTasks today s).2 =
      (s.tasks.filter (isOverdueTask today)).length ∧
    ((s.tasks.filter (isOverdueTask today)).length ≠ 0 →
      (deleteOverdueTasks today s).1.lastAction =
        some (.deleteMany (s.tasks.filter (isOverdueTask today)))) ∧
    ((s.tasks.filter (isOverdueTask today)).length = 0 →
      (deleteOverdueTasks today s).1 = s) ∧
    (∀ x : Task, isOverdueTask today x = true ↔
      ∃ ds d, x.dueDate = some ds ∧ ds ≠ "" ∧ parseYmd ds = some d ∧
        dayNumber d < dayNumber today) ∧
    (∀ (x : Task) (b : Bool),
      isOverdueTask today { x with completed := b } = isOverdueTask today x) := by
  intro today s hnd
  have hover : ∀ x : Task, isOverdueTask today x = true ↔
      ∃ ds d, x.dueDate = some ds ∧ ds ≠ "" ∧ parseYmd ds = some d ∧
        dayNumber d < dayNumber today := by
    intro x
    unfold isOverdueTask
    rcases x.dueDate with _ | ds
    · simp
    · by_cases hds : ds = ""
      · simp [hds]
      · rcases hp : parseYmd ds with _ | d
        · simp [hds, hp]
        · simp only [hds, if_false, hp]
          constructor
          · intro hlt
            exact ⟨ds, d, rfl, hds, hp, by simpa using hlt⟩
          · rintro ⟨ds2, d2, h1, h2, h3, h4⟩
            cases h1
            rw [hp] at h3
            cases h3
            simpa using h4
  by_cases hlen : (s.tasks.filter (isOverdueTask today)).length = 0
  · have hnil : s.tasks.filter (isOverdueTask today) = [] :=
      List.length_eq_zero.mp hlen
    have hres : deleteOverdueTasks today s = (s, 0) := by
      simp only [deleteOverdueTasks]
      rw [hnil]
      simp
    rw [hres]
    have hall : ∀ x ∈ s.tasks, isOverdueTask today x = false := by
      intro x hx
      have := List.filter_eq_nil_iff.mp hnil x hx
      simpa using this
    refine ⟨?_, by simp [hnil], by simp [hlen], fun _ => rfl, hover, fun x b => rfl⟩
    intro x
    constructor
    · intro hx
      exact ⟨hx, hall x hx⟩
    · intro hx
      exact hx.1
  · have hres : deleteOverdueTasks today s =
        ({ tasks := s.tasks.filter (fun task =>
            !((s.tasks.filter (isOverdueTask today)).any
              (fun ot => ot.id == task.id))),
           lastAction := some (.deleteMany
             (s.tasks.filter (isOverdueTask today))) },
         (s.tasks.filter (isOverdueTask today)).length) := by
      simp only [deleteOverdueTasks]
      rw [if_neg hlen]
    rw [hres]
    refine ⟨?_, rfl, fun _ => rfl, fun h => absurd h hlen, hover, fun x b => rfl⟩
    intro x
    simp only [List.mem_filter]
    constructor
    · rintro ⟨hx, hcond⟩
      refine ⟨hx, ?_⟩
      have := any_filter_id (p := isOverdueTask today) hnd hx
      rw [this] at hcond
      simpa using hcond
    · rintro ⟨hx, hcond⟩
      refine ⟨hx, ?_⟩
      rw [any_filter_id (p := isOverdueTask today) hnd hx, hcond]
      rfl

/-- Concrete overdue task for the C5 witness (due Jan 10, reference day Jan
15, completed - completion must not matter). -/
def c5Task1 : Task :=
  { id := 1, text := "pay the bill", completed := true, priority := none,
    dueDate := some "2024-01-10", location := none, createdAt := 0,
    lastUpdated := 0 }

/-- Concrete non-overdue task for the C5 witness. -/
def c5Task2 : Task :=
  { id := 2, text := "buy milk", completed := false, priority := none,
    dueDate := none, location := none, createdAt := 1, lastUpdated := 1 }

/-- Concrete store for the C5 witness. -/
def c5Store : StoreState := { tasks := [c5Task1, c5Task2], lastAction := none }

/-- Witness for C5 at a concrete store and reference day 2024-01-15. -/
theorem claim_C5_witness :
    (∀ x, x ∈ (deleteOverdueTasks ⟨2024, 1, 15⟩ c5Store).1.tasks ↔
        x ∈ c5Store.tasks ∧ isOverdueTask ⟨2024, 1, 15⟩ x = false) ∧
    (deleteOverdueTasks ⟨2024, 1, 15⟩ c5Store).2 =
      (c5Store.tasks.filter (isOverdueTask ⟨2024, 1, 15⟩)).length ∧
    ((c5Store.tasks.filter (isOverdueTask ⟨2024, 1, 15⟩)).length ≠ 0 →
      (deleteOverdueTasks ⟨2024, 1, 15⟩ c5Store).1.lastAction =
        some (.deleteMany (c5Store.tasks.filter (isOverdueTask ⟨2024, 1, 15⟩)))) ∧
    ((c5Store.tasks.filter (isOverdueTask ⟨2024, 1, 15⟩)).length = 0 →
      (deleteOverdueTasks ⟨2024, 1, 15⟩ c5Store).1 = c5Store) ∧
    (∀ x : Task, isOverdueTask ⟨2024, 1, 15⟩ x = true ↔
      ∃ ds d, x.dueDate = some ds ∧ ds ≠ "" ∧ parseYmd ds = some d ∧
        dayNumber d < dayNumber ⟨2024, 1, 15⟩) ∧
    (∀ (x : Task) (b : Bool),
      isOverdueTask ⟨2024, 1, 15⟩ { x with completed := b } =
        isOverdueTask ⟨2024, 1, 15⟩ x) :=
  claim_C5 ⟨2024, 1, 15⟩ c5Store (by decide)


/-! ## Claim C8 -/

/-- Concrete first task of the C8 example. -/
def c8TaskReport : Task :=
  { id := 1, text := "submit the report", completed := false,
    priority := none, dueDate := none, location := none, createdAt := 0,
    lastUpdated := 0 }

/-- Concrete second task of the C8 example. -/
def c8TaskMilk : Task :=
  { id := 2, text := "buy milk", completed := false, priority := none,
    dueDate := none, location := none, createdAt := 1, lastUpdated := 1 }

/-- Claim C8: the resolver topic matching is two-phase with phrase matches
strictly preferred — whenever any phase-1 (bidirectional substring) match
exists the result is exactly the phrase matches and the synonym/token
fallback is never consulted — and on the example tasks
["submit the report", "buy milk"] with topic "submitting the report" exactly
the first task's id is returned. -/
theorem claim_C8 :
    (∀ (tasks : List Task) (topic : String), topic ≠ "" →
      (∃ t ∈ tasks, phraseMatch (jsToLower topic) t = true) →
      getFuzzyMatchingTaskIds tasks topic =
        (tasks.filter (phraseMatch (jsToLower topic))).map (fun t => t.id)) ∧
    getFuzzyMatchingTaskIds [c8TaskReport, c8TaskMilk]
      "submitting the report" = [1] := by
  constructor
  · intro tasks topic htopic hex
    have hlen : (tasks.filter (phraseMatch (jsToLower topic))).length > 0 := by
      rcases hex with ⟨t, ht, hpt⟩
      exact List.length_pos.mpr
        (List.ne_nil_of_mem (List.mem_filter.mpr ⟨ht, hpt⟩))
    simp only [getFuzzyMatchingTaskIds]
    rw [if_neg htopic, if_pos hlen]
  · decide

/-- Witness for C8: a topic that phrase-matches a concrete task list. -/
theorem claim_C8_witness :
    getFuzzyMatchingTaskIds [c8TaskReport, c8TaskMilk] "milk" =
      ([c8TaskReport, c8TaskMilk].filter
        (phraseMatch (jsToLower "milk"))).map (fun t => t.id) :=
  claim_C8.1 [c8TaskReport, c8TaskMilk] "milk" (by decide)
    ⟨c8TaskMilk, by decide, by decide⟩


/-! ## Claim C3 -/

/-- Claim C3: when a filter carries at least one position token, the
resolver evaluates the position tokens against the display-order task list
(1-based for numeric tokens) and the result completely replaces the
attribute-filtered working set: the outcome equals the purely positional
resolution and is unchanged when every attribute filter (text, dueDate,
status, priority, location) is erased. -/
theorem claim_C3 : ∀ (pr : String → Option (Int × Option Int)) (nowMs : Int)
    (mv : Bool) (tasks : List Task) (f : Filter) (ps : List Position),
    f.positions = some ps → ps ≠ [] →
    getFilteredTaskIds pr nowMs mv tasks (some f) =
      resolvePositions (displayOrder mv tasks) ps ∧
    getFilteredTaskIds pr nowMs mv tasks (some f) =
      getFilteredTaskIds pr nowMs mv tasks
        (some { positions := some ps }) ∧
    (∀ (posTasks : List Task) (n : Nat) (hn : n < posTasks.length),
      resolvePositions posTasks [Position.num ((n : Int) + 1)] =
        [(posTasks.get ⟨n, hn⟩).id]) := by
  intro pr nowMs mv tasks f ps hp hne
  have hlen : ps.length > 0 := List.length_pos.mpr hne
  have hmain : ∀ g : Filter, g.positions = some ps →
      getFilteredTaskIds pr nowMs mv tasks (some g) =
        resolvePositions (displayOrder mv tasks) ps := by
    intro g hg
    simp only [getFilteredTaskIds, hg]
    rw [if_pos hlen]
  have h1 := hmain f hp
  have h2 := hmain { positions := some ps } rfl
  refine ⟨h1, h1.trans h2.symm, ?_⟩
  intro posTasks n hn
  simp only [resolvePositions, List.foldl_cons, List.foldl_nil,
    positionIndices]
  rw [if_pos]
  rotate_left
  · simp only [Bool.and_eq_true, decide_eq_true_eq]
    constructor <;> omega
  have he : (n : Int) + 1 - 1 = (n : Int) := by omega
  rw [he]
  simp only [insertIdx]
  simp only [List.contains, List.elem_nil, Bool.false_eq_true, if_false,
    List.nil_append, List.filterMap_cons, List.filterMap_nil]
  rw [Int.toNat_natCast, List.get?_eq_get hn]
  rfl


/-- Concrete tasks for the C3 witness. -/
def c3Task1 : Task :=
  { id := 10, text := "submit the report", completed := true,
    priority := some .high, dueDate := some "2024-01-10", location := none,
    createdAt := 0, lastUpdated := 0 }

/-- Concrete second task for the C3 witness. -/
def c3Task2 : Task :=
  { id := 20, text := "buy milk", completed := false,
    priority := some .low, dueDate := none, location := some "store",
    createdAt := 1, lastUpdated := 1 }

/-- Concrete filter mixing position tokens with attribute filters for the C3
witness. -/
def c3Filter : Filter :=
  { positions := some [Position.num 1, Position.last],
    text := some "report", status := some .completed,
    priority := some [.high], location := some "office",
    dueDate := some "this week" }

/-- Witness for C3: a filter carrying both position tokens and attribute
filters, resolved on a concrete two-task store. -/
theorem claim_C3_witness :
    getFilteredTaskIds (fun _ => none) 0 true [c3Task1, c3Task2]
        (some c3Filter) =
      resolvePositions (displayOrder true [c3Task1, c3Task2])
        [Position.num 1, Position.last] ∧
    getFilteredTaskIds (fun _ => none) 0 true [c3Task1, c3Task2]
        (some c3Filter) =
      getFilteredTaskIds (fun _ => none) 0 true [c3Task1, c3Task2]
        (some { positions := some [Position.num 1, Position.last] }) ∧
    (∀ (posTasks : List Task) (n : Nat) (hn : n < posTasks.length),
      resolvePositions posTasks [Position.num ((n : Int) + 1)] =
        [(posTasks.get ⟨n, hn⟩).id]) :=
  claim_C3 (fun _ => none) 0 true [c3Task1, c3Task2] c3Filter
    [Position.num 1, Position.last] (by decide) (by decide)


/-! ## Claim C6 -/

set_option maxHeartbeats 1600000 in
/-- Claim C6: `detectPriorityFast` follows the spec's 5-step algorithm — an
urgent keyword short-circuits to high with score exactly 90 even when impact
keywords are present; otherwise the score is the hour-table date score plus
15 for impact plus 10 for location minus 10 for a recurrence marker, floored
at 0, bucketed at the 70/30/5 thresholds (stated as agreement with
`detectPrioritySpec`, the algorithm written from the spec's words). -/
theorem claim_C6 : ∀ (chronoParse : String → Int → Option Int)
    (raw : String) (now : Int),
    (detectPriorityFast chronoParse raw now).priority =
      (detectPrioritySpec chronoParse raw now).1 ∧
    (detectPriorityFast chronoParse raw now).score =
      (detectPrioritySpec chronoParse raw now).2 := by
  intro p raw now
  unfold detectPriorityFast detectPrioritySpec
  by_cases hu : containsKeyword (jsToLower (jsTrim raw)) URGENT_KEYWORDS = true
  · simp [hu]
  · rcases hp : p (jsToLower (jsTrim raw)) now with _ | dt
    · simp only [hu, Bool.false_eq_true, if_false, hp]
      by_cases hi : containsKeyword (jsToLower (jsTrim raw)) IMPACT_KEYWORDS = true <;>
        by_cases hl : containsKeyword (jsToLower (jsTrim raw)) LOCATION_KEYWORDS = true <;>
        by_cases hr : (strIncludes (jsToLower (jsTrim raw)) "every" ||
          strIncludes (jsToLower (jsTrim raw)) "daily" ||
          strIncludes (jsToLower (jsTrim raw)) "weekly") = true <;>
        simp only [hi, hl, hr, Bool.false_eq_true, if_true, if_false] <;>
        exact ⟨rfl, rfl⟩
    · simp only [hu, Bool.false_eq_true, if_false, hp]
      by_cases h1 : ((dt : ℚ) - (now : ℚ)) / (1000 * 60 * 60) ≤ 1 / 2 <;>
        by_cases h2 : ((dt : ℚ) - (now : ℚ)) / (1000 * 60 * 60) ≤ 4 <;>
        by_cases h3 : ((dt : ℚ) - (now : ℚ)) / (1000 * 60 * 60) ≤ 24 <;>
        by_cases h4 : ((dt : ℚ) - (now : ℚ)) / (1000 * 60 * 60) ≤ 72 <;>
        by_cases hi : containsKeyword (jsToLower (jsTrim raw)) IMPACT_KEYWORDS = true <;>
        by_cases hl : containsKeyword (jsToLower (jsTrim raw)) LOCATION_KEYWORDS = true <;>
        by_cases hr : (strIncludes (jsToLower (jsTrim raw)) "every" ||
          strIncludes (jsToLower (jsTrim raw)) "daily" ||
          strIncludes (jsToLower (jsTrim raw)) "weekly") = true <;>
        simp only [h1, h2, h3, h4, hi, hl, hr, Bool.false_eq_true,
          if_true, if_false] <;>
        exact ⟨rfl, rfl⟩

/-! ## Claim C10 -/

set_option maxHeartbeats 1600000 in
/-- Claim C10: without any urgent keyword the maximum achievable score is
40 + 15 + 10 = 65, strictly below the high threshold 70, so
`detectPriorityFast` returns high exactly when an urgent keyword is present
(and then the score is exactly 90). -/
theorem claim_C10 : ∀ (chronoParse : String → Int → Option Int)
    (raw : String) (now : Int),
    ((detectPriorityFast chronoParse raw now).priority = .high ↔
      containsKeyword (jsToLower (jsTrim raw)) URGENT_KEYWORDS = true) ∧
    (containsKeyword (jsToLower (jsTrim raw)) URGENT_KEYWORDS = true →
      (detectPriorityFast chronoParse raw now).score = 90) ∧
    (containsKeyword (jsToLower (jsTrim raw)) URGENT_KEYWORDS = false →
      (detectPriorityFast chronoParse raw now).score ≤ 65) := by
  intro p raw now
  unfold detectPriorityFast
  by_cases hu : containsKeyword (jsToLower (jsTrim raw)) URGENT_KEYWORDS = true
  · simp [hu]
  · rcases hp : p (jsToLower (jsTrim raw)) now with _ | dt
    · simp only [hu, Bool.false_eq_true, if_false, hp]
      by_cases hi : containsKeyword (jsToLower (jsTrim raw)) IMPACT_KEYWORDS = true <;>
        by_cases hl : containsKeyword (jsToLower (jsTrim raw)) LOCATION_KEYWORDS = true <;>
        by_cases hr : (strIncludes (jsToLower (jsTrim raw)) "every" ||
          strIncludes (jsToLower (jsTrim raw)) "daily" ||
          strIncludes (jsToLower (jsTrim raw)) "weekly") = true <;>
        simp only [hi, hl, hr, Bool.false_eq_true, if_true, if_false] <;>
        simp [hu]
    · simp only [hu, Bool.false_eq_true, if_false, hp]
      by_cases h1 : ((dt : ℚ) - (now : ℚ)) / (1000 * 60 * 60) ≤ 1 / 2 <;>
        by_cases h2 : ((dt : ℚ) - (now : ℚ)) / (1000 * 60 * 60) ≤ 4 <;>
        by_cases h3 : ((dt : ℚ) - (now : ℚ)) / (1000 * 60 * 60) ≤ 24 <;>
        by_cases h4 : ((dt : ℚ) - (now : ℚ)) / (1000 * 60 * 60) ≤ 72 <;>
        by_cases hi : containsKeyword (jsToLower (jsTrim raw)) IMPACT_KEYWORDS = true <;>
        by_cases hl : containsKeyword (jsToLower (jsTrim raw)) LOCATION_KEYWORDS = true <;>
        by_cases hr : (strIncludes (jsToLower (jsTrim raw)) "every" ||
          strIncludes (jsToLower (jsTrim raw)) "daily" ||
          strIncludes (jsToLower (jsTrim raw)) "weekly") = true <;>
        simp only [h1, h2, h3, h4, hi, hl, hr, Bool.false_eq_true,
          if_true, if_false] <;>
        simp [hu]

/-- Witness for C10: the score bound hypotheses discharged at a concrete
urgent-free input with an impact keyword, a location keyword and a parsed
date within half an hour. -/
theorem claim_C10_witness :
    containsKeyword (jsToLower (jsTrim "pay rent at the supermarket soon"))
      URGENT_KEYWORDS = false ∧
    (detectPriorityFast (fun _ _ => some 600000)
      "pay rent at the supermarket soon" 0).score ≤ 65 :=
  ⟨by decide,
    (claim_C10 (fun _ _ => some 600000) "pay rent at the supermarket soon"
      0).2.2 (by decide)⟩


/-! ## Claim C2 -/

/-- Concrete task with a due date for the C2 counterexample. -/
def c2Task : Task :=
  { id := 1, text := "pay rent", completed := false, priority := none,
    dueDate := some "2025-01-10", location := none, createdAt := 0,
    lastUpdated := 0 }

/-- Concrete one-task store for the C2 counterexample. -/
def c2Store : StoreState := { tasks := [c2Task], lastAction := none }

/-- Counterexample to C2: on the orchestrator's `UPDATE_TASK` path
(`performUpdate`), a natural-language `dueDate` the injected parser fails to
parse does NOT leave the previous due date unchanged — the task's due date
of "2025-01-10" becomes null, without any explicit clear. -/
theorem claim_C2_counterexample :
    c2Task.dueDate = some "2025-01-10" ∧
    ((performUpdate (fun _ => none) ⟨2025, 1, 20⟩ .creationDate 5
        { dueDate := some "someday soon" } [1] c2Store).tasks.map
      (fun t => t.dueDate)) = [none] := by
  constructor
  · rfl
  · decide

/-- Amended claim C2: on the Store's `updateTask` path a failed parse of a
non-empty `dueDate` string leaves the task's previous due date unchanged;
but on the orchestrator's `performUpdate` path a failed parse is converted
to `null` before reaching the store, so each target task's due date is
cleared to null instead. -/
theorem claim_C2_amended : ∀ (parseDate : String → Option Ymd)
    (so : SortOption) (now : Int) (id : Nat) (u : TaskUpdates)
    (s : StoreState) (t : Task) (str : String) (today : Ymd)
    (ud : UpdatesDesc) (targetIds : List Nat) (x : Task),
    s.tasks.find? (fun a => a.id == id) = some t →
    u.dueDate = some (some str) → str ≠ "" → parseDate str = none →
    (∃ t2 ∈ (updateTask parseDate so now id u s).tasks,
      t2.id = t.id ∧ t2.dueDate = t.dueDate) ∧
    (ud.dueDate = some str → ud.dueDateShift = none → x ∈ s.tasks →
      x.id ∈ targetIds →
      ∃ x2 ∈ (performUpdate parseDate today so now ud targetIds s).tasks,
        x2.id = x.id ∧ x2.dueDate = none) := by
  intro parseDate so now id u s t str today ud targetIds x hfind hu hne hp
  have htid : t.id = id := by simpa using List.find?_some hfind
  have htmem : t ∈ s.tasks := List.mem_of_find?_eq_some hfind
  constructor
  · refine ⟨applyUpdates parseDate now t u, ?_, ?_, ?_⟩
    · simp only [updateTask, hfind]
      apply mem_sortTasks.mpr
      have : (fun task => if task.id == id then
          applyUpdates parseDate now task u else task) t =
          applyUpdates parseDate now t u := by
        simp [htid]
      exact this ▸ List.mem_map_of_mem _ htmem
    · rfl
    · simp only [applyUpdates, hu, hne, if_false]
      rw [hp]
      rfl
  · intro hud hshift hx hxid
    refine ⟨applyUpdates parseDate now x (toTaskUpdates ud (some none)), ?_,
      rfl, ?_⟩
    · simp only [performUpdate, hud, hshift]
      rw [if_neg hne]
      rw [hp]
      have hxf : x ∈ s.tasks.filter (fun a =>
          (targetIds.map (fun i => (i, toTaskUpdates ud (some none)))).any
            (fun p => p.1 == a.id)) :=
        List.mem_filter.mpr ⟨hx, List.any_eq_true.mpr
          ⟨(x.id, toTaskUpdates ud (some none)),
            List.mem_map_of_mem _ hxid, by simp⟩⟩
      have htouch : (s.tasks.filter (fun a =>
          (targetIds.map (fun i => (i, toTaskUpdates ud (some none)))).any
            (fun p => p.1 == a.id))).length ≠ 0 := by
        have := List.length_pos.mpr (List.ne_nil_of_mem hxf)
        omega
      simp only [updateTasks]
      rw [if_neg htouch]
      apply mem_sortTasks.mpr
      have hfd := find?_pair_const (v := x.id) hxid
        (toTaskUpdates ud (some none))
      have : (fun task => match (targetIds.map (fun i =>
          (i, toTaskUpdates ud (some none)))).find?
            (fun p => p.1 == task.id) with
          | some p => applyUpdates parseDate now task p.2
          | none => task) x =
          applyUpdates parseDate now x (toTaskUpdates ud (some none)) := by
        simp only [hfd]
      exact this ▸ List.mem_map_of_mem _ hx
    · rfl

/-- Witness for the amended C2 at the concrete store, unparseable due-date
text and failing parser. -/
theorem claim_C2_amended_witness :
    (∃ t2 ∈ (updateTask (fun _ => none) .creationDate 5 1
        { dueDate := some (some "someday soon") } c2Store).tasks,
      t2.id = c2Task.id ∧ t2.dueDate = c2Task.dueDate) ∧
    (∃ x2 ∈ (performUpdate (fun _ => none) ⟨2025, 1, 20⟩ .creationDate 5
        { dueDate := some "someday soon" } [1] c2Store).tasks,
      x2.id = c2Task.id ∧ x2.dueDate = none) := by
  have h := claim_C2_amended (fun _ => none) .creationDate 5 1
    { dueDate := some (some "someday soon") } c2Store c2Task "someday soon"
    ⟨2025, 1, 20⟩ { dueDate := some "someday soon" } [1] c2Task
    (by decide) rfl (by decide) rfl
  exact ⟨h.1, h.2 rfl rfl (by decide) (by decide)⟩


/-! ## Claim C7 -/

/-- Claim C7: for an `UPDATE_TASK` action carrying a relative `dueDateShift`,
the new absolute due date of each resolved target task equals that task's
own current due date plus the shift (with "now"/today as base when the task
has none), computed independently per task — the update each target receives
is a function of that target's own stored due date, never a single shared
date.  The hypothesis on `parseDate` is the single roundtrip instance the
store's re-parse of the already-formatted date needs. -/
theorem claim_C7 : ∀ (parseDate : String → Option Ymd) (today : Ymd)
    (so : SortOption) (now : Int) (u : UpdatesDesc) (shift : DateShift)
    (targetIds : List Nat) (s : StoreState) (t : Task) (d0 : Ymd),
    u.dueDateShift = some shift →
    (s.tasks.map (fun a => a.id)).Nodup →
    t ∈ s.tasks → t.id ∈ targetIds →
    shiftBase today t = some d0 →
    parseDate (formatDate (shiftDue shift d0)) = some (shiftDue shift d0) →
    ∃ t2 ∈ (performUpdate parseDate today so now u targetIds s).tasks,
      t2.id = t.id ∧ t2.dueDate = some (formatDate (shiftDue shift d0)) := by
  intro parseDate today so now u shift targetIds s t d0 hshift hnd ht htid
    hbase hiso
  have htb : targetIds.contains t.id = true := by simpa using htid
  have htshift : t ∈ s.tasks.filter (fun a => targetIds.contains a.id) :=
    List.mem_filter.mpr ⟨ht, htb⟩
  have hsub : (s.tasks.filter (fun a => targetIds.contains a.id)).Sublist
      s.tasks :=
    List.filter_sublist _
  have hndf : ((s.tasks.filter (fun a => targetIds.contains a.id)).map
      (fun a => a.id)).Nodup :=
    (hsub.map (fun a : Task => a.id)).nodup hnd
  have hfind := find?_map_pair (l := s.tasks.filter
      (fun a => targetIds.contains a.id)) hndf htshift
    (fun task => toTaskUpdates u (some (some
      ((((shiftBase today task).map (shiftDue shift)).map formatDate).getD
        "NaN-NaN-NaN"))))
  have hgt : toTaskUpdates u (some (some
      ((((shiftBase today t).map (shiftDue shift)).map formatDate).getD
        "NaN-NaN-NaN"))) =
      toTaskUpdates u (some (some (formatDate (shiftDue shift d0)))) := by
    rw [hbase]
    rfl
  refine ⟨applyUpdates parseDate now t
      (toTaskUpdates u (some (some (formatDate (shiftDue shift d0))))), ?_,
    rfl, ?_⟩
  · simp only [performUpdate, hshift]
    have htouch : (s.tasks.filter (fun a =>
        ((s.tasks.filter (fun b => targetIds.contains b.id)).map
          (fun task => (task.id, toTaskUpdates u (some (some
            ((((shiftBase today task).map (shiftDue shift)).map
              formatDate).getD "NaN-NaN-NaN")))))).any
          (fun p => p.1 == a.id))).length ≠ 0 := by
      have hxf : t ∈ s.tasks.filter (fun a =>
          ((s.tasks.filter (fun b => targetIds.contains b.id)).map
            (fun task => (task.id, toTaskUpdates u (some (some
              ((((shiftBase today task).map (shiftDue shift)).map
                formatDate).getD "NaN-NaN-NaN")))))).any
            (fun p => p.1 == a.id)) := by
        refine List.mem_filter.mpr ⟨ht, List.any_eq_true.mpr ?_⟩
        refine ⟨(t.id, toTaskUpdates u (some (some
          ((((shiftBase today t).map (shiftDue shift)).map formatDate).getD
            "NaN-NaN-NaN")))), List.mem_map_of_mem _ htshift, by simp⟩
      have := List.length_pos.mpr (List.ne_nil_of_mem hxf)
      omega
    simp only [updateTasks]
    rw [if_neg htouch]
    apply mem_sortTasks.mpr
    have hmapped : (fun task => match ((s.tasks.filter
        (fun b => targetIds.contains b.id)).map
          (fun a => (a.id, toTaskUpdates u (some (some
            ((((shiftBase today a).map (shiftDue shift)).map
              formatDate).getD "NaN-NaN-NaN")))))).find?
          (fun p => p.1 == task.id) with
        | some p => applyUpdates parseDate now task p.2
        | none => task) t =
        applyUpdates parseDate now t
          (toTaskUpdates u (some (some (formatDate (shiftDue shift d0))))) := by
      simp only [hfind, hgt]
    exact hmapped ▸ List.mem_map_of_mem _ ht
  · simp only [applyUpdates, toTaskUpdates]
    rw [if_neg (formatDate_ne_empty (shiftDue shift d0)), hiso]
    rfl

/-- Concrete shift (3 days) for the C7 witness. -/
def c7Shift : DateShift := { days := some 3 }

/-- Concrete first task (due 2025-01-10) for the C7 witness. -/
def c7Task1 : Task :=
  { id := 1, text := "submit the report", completed := false,
    priority := none, dueDate := some "2025-01-10", location := none,
    createdAt := 0, lastUpdated := 0 }

/-- Concrete second task (due 2025-02-27) for the C7 witness. -/
def c7Task2 : Task :=
  { id := 2, text := "pay the bill", completed := false, priority := none,
    dueDate := some "2025-02-27", location := none, createdAt := 1,
    lastUpdated := 1 }

/-- Concrete two-task store for the C7 witness. -/
def c7Store : StoreState := { tasks := [c7Task1, c7Task2], lastAction := none }

/-- Witness for C7: shifting both targets by 3 days gives each task its own
prior due date + 3 days (2025-01-13 and 2025-03-02), not a shared date. -/
theorem claim_C7_witness :
    (∃ t2 ∈ (performUpdate parseYmd ⟨2025, 1, 20⟩ .creationDate 5
        { dueDateShift := some c7Shift } [1, 2] c7Store).tasks,
      t2.id = c7Task1.id ∧
      t2.dueDate = some (formatDate (shiftDue c7Shift ⟨2025, 1, 10⟩))) ∧
    (∃ t2 ∈ (performUpdate parseYmd ⟨2025, 1, 20⟩ .creationDate 5
        { dueDateShift := some c7Shift } [1, 2] c7Store).tasks,
      t2.id = c7Task2.id ∧
      t2.dueDate = some (formatDate (shiftDue c7Shift ⟨2025, 2, 27⟩))) ∧
    formatDate (shiftDue c7Shift ⟨2025, 1, 10⟩) = "2025-01-13" ∧
    formatDate (shiftDue c7Shift ⟨2025, 2, 27⟩) = "2025-03-02" :=
  ⟨claim_C7 parseYmd ⟨2025, 1, 20⟩ .creationDate 5
      { dueDateShift := some c7Shift } c7Shift [1, 2] c7Store c7Task1
      ⟨2025, 1, 10⟩ rfl (by decide) (by decide) (by decide) (by decide)
      (by decide),
    claim_C7 parseYmd ⟨2025, 1, 20⟩ .creationDate 5
      { dueDateShift := some c7Shift } c7Shift [1, 2] c7Store c7Task2
      ⟨2025, 2, 27⟩ rfl (by decide) (by decide) (by decide) (by decide)
      (by decide),
    by decide, by decide⟩


/-! ## Claim C1 -/

/-- the single Store mutations of the claim, with their external inputs
(current instant, fresh id, injected parser arguments) made explicit. -/
inductive Mutation
  | add (now : Int) (newId : Nat) (details : NewTaskDetails)
  | toggle (now : Int) (id : Nat)
  | del (id : Nat)
  | update (now : Int) (id : Nat) (u : TaskUpdates)
  | complete (now : Int) (ids : List Nat) (b : Bool)
  | delOverdue (today : Ymd)
  | delAll
deriving Repr

/-- Dispatch of a mutation to the corresponding store operation. -/
def applyMutation (parseDate : String → Option Ymd) (so : SortOption) :
    Mutation → StoreState → StoreState
  | .add now newId details, s => addTask so now newId details s
  | .toggle now id, s => toggleTask now id s
  | .del id, s => deleteTask id s
  | .update now id u, s => updateTask parseDate so now id u s
  | .complete now ids b, s => completeTasks ids b now s
  | .delOverdue today, s => (deleteOverdueTasks today s).1
  | .delAll, s => deleteAllTasks s

/-- the precondition under which a mutation actually mutates (records an
undo entry): the target exists, the new id is fresh, some task is overdue,
the store is nonempty. -/
def mutationOk : Mutation → StoreState → Bool
  | .add _ newId _, s => !(s.tasks.any (fun t => t.id == newId))
  | .toggle _ id, s => s.tasks.any (fun t => t.id == id)
  | .del id, s => s.tasks.any (fun t => t.id == id)
  | .update _ id _, s => s.tasks.any (fun t => t.id == id)
  | .complete _ ids _, s => s.tasks.any (fun t => ids.contains t.id)
  | .delOverdue today, s => s.tasks.any (isOverdueTask today)
  | .delAll, s => !s.tasks.isEmpty

theorem claim_C1 : ∀ (parseDate : String → Option Ymd) (so : SortOption)
    (m : Mutation) (s : StoreState),
    (s.tasks.map (fun t => t.id)).Nodup →
    mutationOk m s = true →
    ((revertLastAction so (applyMutation parseDate so m s)).tasks).Perm
      s.tasks ∧
    (revertLastAction so (applyMutation parseDate so m s)).lastAction =
      none := by
  intro parseDate so m s hnd hok
  cases m with
  | add now newId details =>
    have hfresh : ∀ t ∈ s.tasks, t.id ≠ newId := by
      intro t ht he
      have : s.tasks.any (fun t => t.id == newId) = true :=
        List.any_eq_true.mpr ⟨t, ht, by simp [he]⟩
      simp [mutationOk, this] at hok
    refine ⟨?_, rfl⟩
    simp only [applyMutation, addTask, revertLastAction]
    have h1 := (sortTasks_perm (newTaskOf now newId details :: s.tasks)
      so).filter (fun t => t.id != newId)
    have h2 : (newTaskOf now newId details :: s.tasks).filter
        (fun t => t.id != newId) = s.tasks := by
      rw [List.filter_cons]
      have hfid : ((newTaskOf now newId details).id != newId) = false := by
        simp [newTaskOf]
      rw [hfid]
      simp only [Bool.false_eq_true, if_false]
      exact filter_id_ne_eq_self hfresh
    rw [h2] at h1
    exact h1
  | toggle now id =>
    have hany : s.tasks.any (fun t => t.id == id) = true := hok
    obtain ⟨orig, hf⟩ : ∃ o, s.tasks.find? (fun t => t.id == id) = some o :=
      Option.isSome_iff_exists.mp (List.find?_isSome.mpr
        (List.any_eq_true.mp hany))
    have horigid : orig.id = id := by simpa using List.find?_some hf
    have horigmem : orig ∈ s.tasks := List.mem_of_find?_eq_some hf
    simp only [applyMutation, toggleTask, hf, revertLastAction]
    refine ⟨?_, trivial⟩
    have hcomp : ∀ t ∈ s.tasks,
        (fun t2 => if t2.id == orig.id then orig else t2)
          ((fun task => if task.id == id then
            { task with completed := !task.completed, lastUpdated := now }
            else task) t) =
        (fun t2 => if t2.id == orig.id then orig else t2) t := by
      intro t ht
      by_cases hc : t.id = id
      · simp [hc, horigid]
      · simp [hc, horigid]
    have hmm : (s.tasks.map (fun task => if task.id == id then
        { task with completed := !task.completed, lastUpdated := now }
        else task)).map (fun t2 => if t2.id == orig.id then orig else t2) =
        s.tasks := by
      rw [List.map_map]
      exact (List.map_congr_left hcomp).trans
        (map_replace_id_eq_self hnd horigmem)
    refine (sortTasks_perm _ so).trans ?_
    rw [hmm]
  | del id =>
    have hany : s.tasks.any (fun t => t.id == id) = true := hok
    obtain ⟨t, hf⟩ : ∃ o, s.tasks.find? (fun a => a.id == id) = some o :=
      Option.isSome_iff_exists.mp (List.find?_isSome.mpr
        (List.any_eq_true.mp hany))
    have htid : t.id = id := by simpa using List.find?_some hf
    have htmem : t ∈ s.tasks := List.mem_of_find?_eq_some hf
    simp only [applyMutation, deleteTask, hf, revertLastAction]
    refine ⟨?_, trivial⟩
    have hperm := perm_cons_filter_id hnd htmem
    rw [htid] at hperm
    exact (sortTasks_perm _ so).trans
      ((List.perm_append_singleton t _).trans hperm.symm)
  | update now id u =>
    have hany : s.tasks.any (fun t => t.id == id) = true := hok
    obtain ⟨orig, hf⟩ : ∃ o, s.tasks.find? (fun t => t.id == id) = some o :=
      Option.isSome_iff_exists.mp (List.find?_isSome.mpr
        (List.any_eq_true.mp hany))
    have horigid : orig.id = id := by simpa using List.find?_some hf
    have horigmem : orig ∈ s.tasks := List.mem_of_find?_eq_some hf
    simp only [applyMutation, updateTask, hf, revertLastAction]
    refine ⟨?_, trivial⟩
    have hcomp : ∀ t ∈ s.tasks,
        (fun t2 => if t2.id == orig.id then orig else t2)
          ((fun task => if task.id == id then
            applyUpdates parseDate now task u else task) t) =
        (fun t2 => if t2.id == orig.id then orig else t2) t := by
      intro t ht
      by_cases hc : t.id = id
      · have hid2 : (applyUpdates parseDate now t u).id = t.id := rfl
        simp [hc, horigid, hid2]
      · simp [hc, horigid]
    have hmm : (s.tasks.map (fun task => if task.id == id then
        applyUpdates parseDate now task u else task)).map
        (fun t2 => if t2.id == orig.id then orig else t2) = s.tasks := by
      rw [List.map_map]
      exact (List.map_congr_left hcomp).trans
        (map_replace_id_eq_self hnd horigmem)
    refine (sortTasks_perm _ so).trans ?_
    refine ((sortTasks_perm _ so).map _).trans ?_
    rw [hmm]
  | complete now ids b =>
    have hany : s.tasks.any (fun t => ids.contains t.id) = true := hok
    obtain ⟨w, hw, hwc⟩ := List.any_eq_true.mp hany
    have hlen : (s.tasks.filter (fun t => ids.contains t.id)).length ≠ 0 := by
      have hwmem : w ∈ s.tasks.filter (fun t => ids.contains t.id) :=
        List.mem_filter.mpr ⟨hw, hwc⟩
      have := List.length_pos.mpr (List.ne_nil_of_mem hwmem)
      omega
    simp only [applyMutation, completeTasks]
    rw [if_neg hlen]
    simp only [revertLastAction]
    refine ⟨?_, trivial⟩
    have hcomp : ∀ t ∈ s.tasks,
        (fun t2 => ((s.tasks.filter (fun a => ids.contains a.id)).find?
          (fun o => o.id == t2.id)).getD t2)
          ((fun task => if ids.contains task.id then
            { task with completed := b, lastUpdated := now }
            else task) t) = t := by
      intro t ht
      by_cases hc : ids.contains t.id = true
      · simp only [hc, if_true]
        have hfd := find?_id_filter (p := fun a => ids.contains a.id) hnd ht hc
        have hid2 : ({ t with completed := b, lastUpdated := now } : Task).id =
            t.id := rfl
        simp only [hid2, hfd]
        rfl
      · simp only [hc, Bool.false_eq_true, if_false]
        have hc2 : (fun a => ids.contains a.id) t = false := by
          simpa using hc
        rw [find?_id_filter_none (p := fun a => ids.contains a.id) hnd ht hc2]
        rfl
    have hmm : (s.tasks.map (fun task => if ids.contains task.id then
        { task with completed := b, lastUpdated := now } else task)).map
        (fun t2 => ((s.tasks.filter (fun a => ids.contains a.id)).find?
          (fun o => o.id == t2.id)).getD t2) = s.tasks := by
      rw [List.map_map]
      exact (List.map_congr_left hcomp).trans (List.map_id' _)
    rw [hmm]
  | delOverdue today =>
    have hany : s.tasks.any (isOverdueTask today) = true := hok
    obtain ⟨w, hw, hwc⟩ := List.any_eq_true.mp hany
    have hlen : (s.tasks.filter (isOverdueTask today)).length ≠ 0 := by
      have := List.length_pos.mpr
        (List.ne_nil_of_mem (List.mem_filter.mpr ⟨hw, hwc⟩))
      omega
    simp only [applyMutation, deleteOverdueTasks]
    rw [if_neg hlen]
    simp only [revertLastAction]
    refine ⟨?_, trivial⟩
    have hfc : s.tasks.filter (fun task =>
        !((s.tasks.filter (isOverdueTask today)).any (fun ot =>
          ot.id == task.id))) =
        s.tasks.filter (fun task => !(isOverdueTask today task)) :=
      List.filter_congr (fun t ht => by
        rw [any_filter_id (p := isOverdueTask today) hnd ht])
    refine (sortTasks_perm _ so).trans ?_
    rw [hfc]
    exact List.perm_append_comm.trans
      (List.filter_append_perm (isOverdueTask today) s.tasks)
  | delAll =>
    have hne2 : ¬(s.tasks.isEmpty = true) := by
      simpa [mutationOk] using hok
    simp only [applyMutation, deleteAllTasks]
    rw [if_neg hne2]
    simp only [revertLastAction]
    refine ⟨?_, trivial⟩
    simpa using sortTasks_perm s.tasks so

/-- Concrete first task for the C1 witness. -/
def c1Task1 : Task :=
  { id := 1, text := "submit the report", completed := false,
    priority := some .high, dueDate := some "2024-01-10", location := none,
    createdAt := 3, lastUpdated := 3 }

/-- Concrete second task for the C1 witness. -/
def c1Task2 : Task :=
  { id := 2, text := "buy milk", completed := true, priority := none,
    dueDate := none, location := some "store", createdAt := 1,
    lastUpdated := 2 }

/-- Concrete store for the C1 witness. -/
def c1Store : StoreState := { tasks := [c1Task1, c1Task2], lastAction := none }

/-- Witness for C1: reverting immediately after a concrete toggle mutation
restores the collection (as a multiset of field values) and clears the undo
slot. -/
theorem claim_C1_witness :
    (c1Store.tasks.map (fun t => t.id)).Nodup ∧
    mutationOk (Mutation.toggle 99 1) c1Store = true ∧
    ((revertLastAction .creationDate (applyMutation parseYmd .creationDate
      (Mutation.toggle 99 1) c1Store)).tasks).Perm c1Store.tasks ∧
    (revertLastAction .creationDate (applyMutation parseYmd .creationDate
      (Mutation.toggle 99 1) c1Store)).lastAction = none :=
  ⟨by decide, by decide,
    (claim_C1 parseYmd .creationDate (Mutation.toggle 99 1) c1Store
      (by decide) (by decide)).1,
    (claim_C1 parseYmd .creationDate (Mutation.toggle 99 1) c1Store
      (by decide) (by decide)).2⟩

end EchoTasks
